import Mathlib

/-!
Verification of the csvcatalog storage engine.

Strings from the Python source are embedded as `List Char`; byte strings as
`List Nat`.  Python functions from `csvcatalog/storage.py` and
`csvcatalog/crypto.py` are translated into executable Lean definitions, and the
specification's properties are settled against those definitions.

The model of Python character classes is restricted to the ASCII range (the
theorems that quantify over arbitrary strings carry an all-ASCII hypothesis
where the Unicode case could matter).
-/

/-- Shorthand: the character list of a string literal. -/
def str (s : String) : List Char := s.data

/-- `c` is an ASCII letter `A`-`Z` or `a`-`z`. -/
def isAsciiLetter (c : Char) : Bool :=
  ('A' ≤ c && c ≤ 'Z') || ('a' ≤ c && c ≤ 'z')

/-- `c` is an ASCII digit `0`-`9`. -/
def isAsciiDigit (c : Char) : Bool :=
  '0' ≤ c && c ≤ '9'

/-- `c` lies in the ASCII range. -/
def isAsciiChar (c : Char) : Bool :=
  c.toNat < 128

/-- Python `str.isidentifier` on the ASCII range: nonempty, the first
character a letter or underscore, the rest letters, digits or underscores. -/
def pyStrIsIdentifier : List Char → Bool
  | [] => false
  | c :: cs =>
    (isAsciiLetter c || c = '_') &&
      cs.all (fun d => isAsciiLetter d || isAsciiDigit d || d = '_')

/-- Python `c.isidentifier()` for a single character `c` (ASCII range):
true exactly for letters and the underscore — single digits are *not*
identifiers. -/
def pyCharIsIdentifier (c : Char) : Bool :=
  pyStrIsIdentifier [c]

/-- Python `s.lstrip("_")`: drop every leading underscore. -/
def lstripUnderscore : List Char → List Char
  | [] => []
  | c :: cs => if c = '_' then lstripUnderscore cs else c :: cs

/-- Errors raised by `Storage` (`ValueError` variants and the
`sqlite3.OperationalError`s the model can produce). -/
inductive StorageError where
  | invalidIdentifier (name : List Char)
  | tableNotFound (name : List Char)
  | columnNotFound (column table : List Char)
  | noSuchTable (name : List Char)
  | noSuchColumn (column : List Char)
  deriving DecidableEq, Inhabited

instance {ε α : Type} [DecidableEq ε] [DecidableEq α] : DecidableEq (Except ε α) :=
  fun a b =>
    match a, b with
    | .error x, .error y => decidable_of_iff (x = y) (by simp)
    | .error _, .ok _ => isFalse (by simp)
    | .ok _, .error _ => isFalse (by simp)
    | .ok x, .ok y => decidable_of_iff (x = y) (by simp)

/-- `Storage._validate_identifier` (storage.py lines 219-224):
`cleaned_name = "".join(c for c in name if c.isidentifier()).lstrip("_")`;
raise `ValueError` if `cleaned_name` is empty or not an identifier, else
return `cleaned_name`. -/
def validateIdentifier (name : List Char) : Except StorageError (List Char) :=
  if lstripUnderscore (name.filter pyCharIsIdentifier) = [] then
    .error (.invalidIdentifier name)
  else if pyStrIsIdentifier (lstripUnderscore (name.filter pyCharIsIdentifier)) = false then
    .error (.invalidIdentifier name)
  else .ok (lstripUnderscore (name.filter pyCharIsIdentifier))

/-- The spec's safe-identifier pattern `^[A-Za-z_][A-Za-z0-9_]*$`. -/
def matchesSafePattern : List Char → Bool
  | [] => false
  | c :: cs =>
    (isAsciiLetter c || c = '_') &&
      cs.all (fun d => isAsciiLetter d || isAsciiDigit d || d = '_')

/-- The pattern `^[A-Za-z][A-Za-z_]*$`: a nonempty string of letters and
underscores that starts with a letter (no digits, no leading underscore). -/
def matchesLetterPattern : List Char → Bool
  | [] => false
  | c :: cs => isAsciiLetter c && cs.all (fun d => isAsciiLetter d || d = '_')

/-- Modelled from the spec: the sanitizer the spec describes — "replacing
every character outside `[A-Za-z0-9_]` with `_`, then prefixing with `_` if
the result starts with a digit or is empty after substitution".  Stated only
for comparison with `validateIdentifier`, the sanitizer the code implements. -/
def specSanitize (s : List Char) : List Char :=
  let r := s.map (fun c => if isAsciiLetter c || isAsciiDigit c || c = '_' then c else '_')
  match r with
  | [] => ['_']
  | c :: _ => if isAsciiDigit c then '_' :: r else r

/-! ## Tables, rows and SQL text -/

/-- A row as returned by `sqlite3.Row` / stored in a table: an association
list from column name to a text value or NULL (`none`). -/
abbrev Row : Type := List (List Char × Option (List Char))

/-- A table of the underlying SQLite database: its name, its declared
columns, and its stored rows. -/
structure TableM where
  name : List Char
  columns : List (List Char)
  rows : List Row
  deriving DecidableEq

/-- The `Table` dataclass of storage.py: name, columns, cached row count. -/
structure TableInfo where
  name : List Char
  columns : List (List Char)
  count : Nat
  deriving DecidableEq

/-- `row.get(c, None)` on a Python dict modelled as an association list:
the value stored under the first occurrence of key `c`, or `none` when the
key is absent. -/
def rowGet (r : Row) (c : List Char) : Option (List Char) :=
  match r.find? (fun p => p.1 == c) with
  | some p => p.2
  | none => none

/-- Python `", ".join(...)`-style joining with a separator. -/
def joinWith (sep : List Char) : List (List Char) → List Char
  | [] => []
  | [x] => x
  | x :: xs => x ++ sep ++ joinWith sep xs

/-- SQLite ASCII lower-casing (LIKE is case-insensitive on ASCII letters). -/
def lowerChar (c : Char) : Char :=
  if 'A' ≤ c && c ≤ 'Z' then Char.ofNat (c.toNat + 32) else c

/-- Helper for `%` in LIKE patterns: does `f` accept some suffix of the
string? -/
def anySuffix (f : List Char → Bool) : List Char → Bool
  | [] => f []
  | c :: s => f (c :: s) || anySuffix f s

/-- SQLite `LIKE` matching (no ESCAPE clause): `%` matches any sequence,
`_` any single character, other characters match case-insensitively on
ASCII. -/
def likeMatch : List Char → List Char → Bool
  | [], s => s.isEmpty
  | c :: ps, s =>
    if c = '%' then anySuffix (likeMatch ps) s
    else
      match s with
      | [] => false
      | d :: s₂ => (c = '_' || lowerChar c == lowerChar d) && likeMatch ps s₂

/-- The search pattern `f"%{value}%"` of `Storage.search_data`. -/
def mkPattern (value : List Char) : List Char :=
  '%' :: (value ++ ['%'])

/-- Does row `r` match `col LIKE pattern` for some column of `cols`?
(A NULL or absent value never matches, as in SQL.) -/
def rowMatches (cols : List (List Char)) (pattern : List Char) (r : Row) : Bool :=
  cols.any (fun c =>
    match rowGet r c with
    | some v => likeMatch pattern v
    | none => false)

/-- SQLite name resolution for
`select * from "tname" where "c1" like ? or ...`: the table must exist and
every referenced column must be one of its columns, otherwise the engine
raises an `OperationalError`. -/
def execResolve (db : List TableM) (tname : List Char) (cols : List (List Char)) :
    Except StorageError TableM :=
  match db.find? (fun t => t.name == tname) with
  | none => .error (.noSuchTable tname)
  | some t =>
    match cols.find? (fun c => !t.columns.contains c) with
    | some c => .error (.noSuchColumn c)
    | none => .ok t

/-- Executing the per-table search query: the rows of the resolved table
whose listed columns LIKE-match the pattern. -/
def execSelectLike (db : List TableM) (tname : List Char) (cols : List (List Char))
    (pattern : List Char) : Except StorageError (List Row) :=
  (execResolve db tname cols).map (fun t => t.rows.filter (rowMatches cols pattern))

/-- `Storage.get_tables` (storage.py lines 117-137): for every table name in
`sqlite_master`, validate the name, read the columns of the table *named by
the validated name* via `PRAGMA table_info` (empty when no such table), and
count its rows with `SELECT COUNT(*)` (an `OperationalError` when no such
table); produce `Table(original_name, columns, count)`. -/
def getTableInfo (db : List TableM) (t : TableM) : Except StorageError TableInfo :=
  match validateIdentifier t.name with
  | .error e => .error e
  | .ok safe =>
    match db.find? (fun u => u.name == safe) with
    | none => .error (.noSuchTable safe)
    | some u => .ok ⟨t.name, u.columns, u.rows.length⟩

/-- The loop of `Storage.get_tables` over the names listed in
`sqlite_master`, the first raised error aborting the whole call. -/
def getTablesFrom (db : List TableM) : List TableM → Except StorageError (List TableInfo)
  | [] => .ok []
  | t :: ts =>
    match getTableInfo db t with
    | .error e => .error e
    | .ok i =>
      match getTablesFrom db ts with
      | .error e => .error e
      | .ok rest => .ok (i :: rest)

/-- `Storage.get_tables`, over every table of the database. -/
def getTables (db : List TableM) : Except StorageError (List TableInfo) :=
  getTablesFrom db db

/-- The list comprehension `[self._validate_identifier(c) for c in columns]`:
validate every name, the first raised error aborting the whole call. -/
def validateAll : List (List Char) → Except StorageError (List (List Char))
  | [] => .ok []
  | c :: cs =>
    match validateIdentifier c with
    | .error e => .error e
    | .ok sc =>
      match validateAll cs with
      | .error e => .error e
      | .ok rest => .ok (sc :: rest)

/-- The SQL text `select * from "tname" where "c1" like ? or "c2" like ? ...`
built by `Storage.search_data`. -/
def buildSelectQuery (tname : List Char) (cols : List (List Char)) : List Char :=
  str "select * from \"" ++ tname ++ str "\" where " ++
    joinWith (str " or ") (cols.map (fun c => str "\"" ++ c ++ str "\" like ?"))

/-- The per-table column selection and identifier validation of the loop body
of `Storage.search_data` (storage.py lines 179-207), up to and including the
construction of the interpolated identifiers: returns `none` to skip the
table (`continue`), or the validated table name together with the validated
columns of the WHERE clause.  `tableNameGiven` tells whether an explicit
`table_name` was passed (Python truthiness of `table_name`). -/
def chooseColumns (tableNameGiven : Bool) (columnName? : Option (List Char))
    (t : TableInfo) : Except StorageError (List (List Char)) :=
  match columnName? with
  | some cn =>
    match validateIdentifier cn with
    | .error e => .error e
    | .ok safe =>
      if t.columns.contains safe then .ok [safe]
      else if tableNameGiven then .error (.columnNotFound cn t.name)
      else .ok []
  | none => .ok t.columns

/-- Continuing the loop body: skip the table when no columns are selected,
otherwise validate each selected column (building the WHERE clause) and then
the table name (building the FROM clause). -/
def planTable (tableNameGiven : Bool) (columnName? : Option (List Char))
    (t : TableInfo) : Except StorageError (Option (List Char × List (List Char))) :=
  if t.columns = [] then .ok none
  else
    match chooseColumns tableNameGiven columnName? t with
    | .error e => .error e
    | .ok cols =>
      if cols = [] then .ok none
      else
        match validateAll cols with
        | .error e => .error e
        | .ok safeCols =>
          match validateIdentifier t.name with
          | .error e => .error e
          | .ok safeName => .ok (some (safeName, safeCols))

/-- One iteration of the `Storage.search_data` loop: plan the query for table
`t`, then execute it; yields `none` when the table is skipped, otherwise the
built SQL text, the bound parameters (the pattern once per searched column)
and the fetched rows. -/
def searchTableStep (db : List TableM) (pattern : List Char) (tableNameGiven : Bool)
    (columnName? : Option (List Char)) (t : TableInfo) :
    Except StorageError (Option ((List Char × List (List Char)) × List Row)) :=
  match planTable tableNameGiven columnName? t with
  | .error e => .error e
  | .ok none => .ok none
  | .ok (some (safeName, safeCols)) =>
    match execSelectLike db safeName safeCols pattern with
    | .error e => .error e
    | .ok rows =>
      .ok (some ((buildSelectQuery safeName safeCols,
                  List.replicate safeCols.length pattern), rows))

/-- The full loop of `Storage.search_data`: iterate `searchTableStep` over the
tables to search, collecting the (query, parameters) pairs that were executed
and the result mapping `all_results` (a table contributes an entry only when
its query returned at least one row). -/
def searchLoop (db : List TableM) (pattern : List Char) (tableNameGiven : Bool)
    (columnName? : Option (List Char)) :
    List TableInfo →
      Except StorageError
        (List (List Char × List (List Char)) × List (List Char × List Row))
  | [] => .ok ([], [])
  | t :: ts =>
    match searchTableStep db pattern tableNameGiven columnName? t with
    | .error e => .error e
    | .ok st =>
      match searchLoop db pattern tableNameGiven columnName? ts with
      | .error e => .error e
      | .ok rest =>
        match st with
        | none => .ok rest
        | some (qr, rows) =>
            .ok (qr :: rest.1,
                 if rows = [] then rest.2 else (t.name, rows) :: rest.2)

/-- Selecting the tables to search (storage.py lines 165-174): with an
explicit `table_name`, the single matching table of `get_tables()` — a
`ValueError` when absent; otherwise all tables. -/
def resolveTables (infos : List TableInfo) :
    Option (List Char) → Except StorageError (List TableInfo)
  | some tn =>
    match infos.find? (fun i => i.name == tn) with
    | none => .error (.tableNotFound tn)
    | some i => .ok [i]
  | none => .ok infos

/-- `Storage.search_data` (storage.py lines 158-217), instrumented to also
return the SQL texts and bound parameters it executed.  `tableName? = none`
models Python `table_name` being `None` (or empty, which the code treats
identically by truthiness), likewise `columnName?`. -/
def searchDataFull (db : List TableM) (value : List Char)
    (tableName? columnName? : Option (List Char)) :
    Except StorageError
      (List (List Char × List (List Char)) × List (List Char × List Row)) :=
  match getTables db with
  | .error e => .error e
  | .ok infos =>
    match resolveTables infos tableName? with
    | .error e => .error e
    | .ok tablesToSearch =>
        searchLoop db (mkPattern value) tableName?.isSome columnName? tablesToSearch

/-- `Storage.search_data`: the result mapping from table name to matched
rows. -/
def searchData (db : List TableM) (value : List Char)
    (tableName? columnName? : Option (List Char)) :
    Except StorageError (List (List Char × List Row)) :=
  (searchDataFull db value tableName? columnName?).map Prod.snd

/-- The sequence of SQL texts executed by `Storage.search_data` (without
their bound parameters or results). -/
def searchQueryTexts (db : List TableM) (value : List Char)
    (tableName? columnName? : Option (List Char)) :
    Except StorageError (List (List Char)) :=
  (searchDataFull db value tableName? columnName?).map (fun p => p.1.map Prod.fst)

/-- `aggregated_results_by_table.setdefault(table, []).extend(rows)`: extend
the row list under key `t`, inserting the key at the end when absent. -/
def addRows (acc : List (List Char × List Row)) (t : List Char) (rows : List Row) :
    List (List Char × List Row) :=
  match acc with
  | [] => [(t, rows)]
  | (u, rs) :: rest =>
      if u = t then (u, rs ++ rows) :: rest else (u, rs) :: addRows rest t rows

/-- Merge one target's result mapping into the aggregate, in order. -/
def mergeResults (acc res : List (List Char × List Row)) :
    List (List Char × List Row) :=
  res.foldl (fun a p => addRows a p.1 p.2) acc

/-- The aggregation loop of `Storage._search_command` (storage.py lines
405-429): call `search_data` once per parsed target; a `ValueError` or
`sqlite3.OperationalError` raised for a target is caught, reported and
skipped (`continue`), losing that whole target's results; the results of the
remaining targets are merged. -/
def searchCommand (db : List TableM) (value : List Char)
    (targets : List (Option (List Char) × Option (List Char))) :
    List (List Char × List Row) :=
  targets.foldl (fun acc tgt =>
    match searchData db value tgt.1 tgt.2 with
    | .error _ => acc
    | .ok res => mergeResults acc res) []

/-- The SQL text built by `Storage.create_table` (storage.py lines 90-100):
validate the table name and each column, then issue
`CREATE TABLE IF NOT EXISTS "name" ("c1" TEXT, "c2" TEXT, ...)`. -/
def createTableQuery (name : List Char) (columns : List (List Char)) :
    Except StorageError (List Char) :=
  match validateIdentifier name with
  | .error e => .error e
  | .ok safeName =>
    match validateAll columns with
    | .error e => .error e
    | .ok safeCols =>
      .ok (str "CREATE TABLE IF NOT EXISTS \"" ++ safeName ++ str "\" (" ++
           joinWith (str ", ")
             (safeCols.map (fun c => str "\"" ++ c ++ str "\" TEXT")) ++
           str ")")

/-- The single INSERT batch issued by `Storage.save`: the target table, the
column list of the INSERT statement, and one value tuple per input row. -/
structure InsertBatch where
  table : List Char
  columns : List (List Char)
  rows : List (List (Option (List Char)))
  deriving DecidableEq

/-- `Storage.save` (storage.py lines 139-156): no-op on an empty batch;
otherwise validate the table name, take `columns = list(data[0].keys())`,
validate each, and insert for every row the tuple
`(row.get(c, None) for c in columns)`. -/
def save (table : List Char) (data : List Row) :
    Except StorageError (Option InsertBatch) :=
  match data with
  | [] => .ok none
  | first :: _ =>
    match validateIdentifier table with
    | .error e => .error e
    | .ok safeTable =>
      match validateAll (first.map Prod.fst) with
      | .error e => .error e
      | .ok safeColumns =>
        .ok (some ⟨safeTable, safeColumns,
          data.map (fun row => (first.map Prod.fst).map (fun c => rowGet row c))⟩)


/-! ## The encryption envelope (crypto.py)

The cipher primitives (`PBKDF2`, `AES.new(..., MODE_GCM)`,
`encrypt_and_digest`, `decrypt_and_verify`) come from the PyCryptodome
library, which is not part of the repository; they are modelled abstractly,
from the spec's description of them. -/

/-- Modelled from the spec: an abstract password-based authenticated
encryption scheme standing for PBKDF2 plus AES-256-GCM (the
"slow key-derivation function" and "authenticated cipher" of §4.6):
`deriveKey password salt` is the derived key, `encrypt key nonce data`
yields `(ciphertext, tag)`, and `decryptVerify key nonce ciphertext tag`
yields the plaintext or `none` when authentication fails.  The spec's
guarantees about these primitives appear as hypotheses of the theorems. -/
structure AEADScheme where
  deriveKey : List Nat → List Nat → List Nat
  encrypt : List Nat → List Nat → List Nat → List Nat × List Nat
  decryptVerify : List Nat → List Nat → List Nat → List Nat → Option (List Nat)

/-- `SALT_SIZE` of crypto.py. -/
def SALT_SIZE : Nat := 16

/-- `NONCE_SIZE` of crypto.py. -/
def NONCE_SIZE : Nat := 16

/-- `TAG_SIZE` of crypto.py. -/
def TAG_SIZE : Nat := 16

/-- The envelope bytes written by `encrypt_bytes_to_file` (crypto.py lines
24-32): derive the key from the password and a fresh random salt, encrypt
under a fresh nonce, and emit `salt + nonce + tag + ciphertext`.  The random
`salt` and `nonce` are parameters of the model. -/
def encryptEnvelope (A : AEADScheme) (salt nonce data password : List Nat) : List Nat :=
  let key := A.deriveKey password salt
  let ct := A.encrypt key nonce data
  salt ++ nonce ++ ct.2 ++ ct.1

/-- The fixed error message of `decrypt_file` and `decrypt_file_to_temp`. -/
def decryptionFailedMsg : String :=
  "failed to decrypt file, incorrect password or corrupted file"

/-- `decrypt_file` (crypto.py lines 35-54) on the bytes of an existing file:
split the envelope as `[:16]`, `[16:32]`, `[32:48]`, `[48:]`, re-derive the
key, and verify-decrypt; an authentication failure raises `ValueError` with
the fixed message `decryptionFailedMsg`. -/
def decryptEnvelope (A : AEADScheme) (env password : List Nat) :
    Except String (List Nat) :=
  let salt := env.take SALT_SIZE
  let nonce := (env.drop SALT_SIZE).take NONCE_SIZE
  let tag := (env.drop (SALT_SIZE + NONCE_SIZE)).take TAG_SIZE
  let ciphertext := env.drop (SALT_SIZE + NONCE_SIZE + TAG_SIZE)
  let key := A.deriveKey password salt
  match A.decryptVerify key nonce ciphertext tag with
  | some plaintext => .ok plaintext
  | none => .error decryptionFailedMsg

/-- `decrypt_file_to_temp` (crypto.py lines 57-85) on the bytes of an
existing file: identical envelope parsing and verification, the plaintext
being returned as the contents of the temporary file; an authentication
failure raises `ValueError` with the same fixed message. -/
def decryptEnvelopeToTemp (A : AEADScheme) (env password : List Nat) :
    Except String (List Nat) :=
  let salt := env.take SALT_SIZE
  let nonce := (env.drop SALT_SIZE).take NONCE_SIZE
  let tag := (env.drop (SALT_SIZE + NONCE_SIZE)).take TAG_SIZE
  let ciphertext := env.drop (SALT_SIZE + NONCE_SIZE + TAG_SIZE)
  let key := A.deriveKey password salt
  match A.decryptVerify key nonce ciphertext tag with
  | some plaintext => .ok plaintext
  | none => .error decryptionFailedMsg

/-- A concrete authenticated-encryption instance used to witness the
abstract theorems: the key is the password alongside the salt, encryption
shifts every byte up by one, and the tag is sixteen copies of a checksum of
key, nonce and plaintext. -/
def toyAEAD : AEADScheme where
  deriveKey password salt := password ++ salt
  encrypt key nonce data :=
    (data.map (fun x => x + 1),
     List.replicate 16 ((key.sum + nonce.sum + data.sum) % 256))
  decryptVerify key nonce ciphertext tag :=
    let d := ciphertext.map (fun x => x - 1)
    if tag = List.replicate 16 ((key.sum + nonce.sum + d.sum) % 256) then some d
    else none

/-! ## File operations of the close-session re-encryption -/

/-- An observable file-system operation. -/
inductive FileOp where
  | writeFile (path : List Char) (bytes : List Nat)
  | renameFile (src dst : List Char)
  deriving DecidableEq

/-- The file operations performed by `encrypt_bytes_to_file` (crypto.py lines
24-32), as invoked by the `cleanup` closure of `app.main` (app.py lines
75-84) with `db_path`, the original encrypted file: a single
`file_path.write_bytes(salt + nonce + tag + ciphertext)` directly on that
path — no temporary file and no rename. -/
def encryptBytesToFileOps (A : AEADScheme) (salt nonce data password : List Nat)
    (path : List Char) : List FileOp :=
  [FileOp.writeFile path (encryptEnvelope A salt nonce data password)]

/-- Modelled from the spec: `Path.write_bytes` opens the target for writing,
truncating it, and writes the bytes sequentially; §5 contemplates the write
failing partway, after which only the first `k` bytes are on disk — the
previous contents `old` are gone. -/
def writeInterrupted (_old newBytes : List Nat) (k : Nat) : List Nat :=
  newBytes.take k


/-- Sample table used in concrete theorems: a healthy table with one row
whose only value contains the letter `x`. -/
def sampleGood : TableM :=
  ⟨str "good", [str "c"], [[(str "c", some (str "vxv"))]]⟩

/-- Sample table used in concrete theorems: a table whose SQL-level name
`9bad` is rewritten to `bad` by the sanitizer, so the queries of
`get_tables` / `search_data` address a table that does not exist. -/
def sampleSick : TableM := ⟨str "9bad", [str "c"], []⟩

/-! ## Lemmas about the identifier sanitizer -/

theorem pyCharIsIdentifier_eq (c : Char) :
    pyCharIsIdentifier c = (isAsciiLetter c || c = '_') := by
  simp [pyCharIsIdentifier, pyStrIsIdentifier]

theorem matchesSafePattern_eq_pyStrIsIdentifier (l : List Char) :
    matchesSafePattern l = pyStrIsIdentifier l := by
  cases l <;> rfl

theorem lstripUnderscore_sublist (l : List Char) :
    (lstripUnderscore l).Sublist l := by
  induction l with
  | nil => simp [lstripUnderscore]
  | cons c cs ih =>
    by_cases h : c = '_'
    · simpa [lstripUnderscore, h] using ih.trans (List.sublist_cons_self c cs)
    · simp [lstripUnderscore, h]

theorem lstripUnderscore_head?_ne (l : List Char) :
    (lstripUnderscore l).head? ≠ some '_' := by
  induction l with
  | nil => simp [lstripUnderscore]
  | cons c cs ih =>
    by_cases h : c = '_' <;> simp [lstripUnderscore, h, ih]

theorem lstripUnderscore_eq_self {l : List Char} (h : l.head? ≠ some '_') :
    lstripUnderscore l = l := by
  cases l with
  | nil => rfl
  | cons c cs =>
    have hc : c ≠ '_' := by simpa using h
    simp [lstripUnderscore, hc]

theorem validateIdentifier_ok_facts {s r : List Char}
    (h : validateIdentifier s = .ok r) :
    r = lstripUnderscore (s.filter pyCharIsIdentifier) ∧ r ≠ [] ∧
      pyStrIsIdentifier r = true := by
  unfold validateIdentifier at h
  split at h
  · simp at h
  · split at h
    · simp at h
    · next h1 h2 =>
      have hr : lstripUnderscore (s.filter pyCharIsIdentifier) = r := by
        simpa using h
      subst hr
      exact ⟨rfl, h1, by simpa using h2⟩

theorem validateIdentifier_ok_sublist {s r : List Char}
    (h : validateIdentifier s = .ok r) : r.Sublist s := by
  obtain ⟨hr, -, -⟩ := validateIdentifier_ok_facts h
  exact hr ▸ (lstripUnderscore_sublist _).trans (List.filter_sublist s)

theorem validateIdentifier_ok_all {s r : List Char}
    (h : validateIdentifier s = .ok r) : r.all pyCharIsIdentifier = true := by
  obtain ⟨hr, -, -⟩ := validateIdentifier_ok_facts h
  rw [List.all_eq_true]
  intro c hc
  have : c ∈ s.filter pyCharIsIdentifier :=
    (lstripUnderscore_sublist _).mem (hr ▸ hc)
  exact (List.mem_filter.mp this).2

theorem validateIdentifier_ok_head {s r : List Char}
    (h : validateIdentifier s = .ok r) : r.head? ≠ some '_' := by
  obtain ⟨hr, -, -⟩ := validateIdentifier_ok_facts h
  exact hr ▸ lstripUnderscore_head?_ne _

/-- The code's sanitizer is idempotent: a returned identifier is its own
sanitization. -/
theorem validateIdentifier_idem {s r : List Char}
    (h : validateIdentifier s = .ok r) : validateIdentifier r = .ok r := by
  obtain ⟨-, hne, hpy⟩ := validateIdentifier_ok_facts h
  have hall := validateIdentifier_ok_all h
  have hfix : r.filter pyCharIsIdentifier = r :=
    List.filter_eq_self.mpr (List.all_eq_true.mp hall)
  have hstrip : lstripUnderscore r = r :=
    lstripUnderscore_eq_self (validateIdentifier_ok_head h)
  unfold validateIdentifier
  rw [hfix, hstrip]
  simp [hne, hpy]


/-! ## C1: totality of sanitization -/

/-- C1 (counterexample): lenient sanitization is *not* total — on the input
`"!!!"` (every character deleted) `_validate_identifier` raises `ValueError`
instead of returning an identifier. -/
theorem sanitizer_not_total :
    validateIdentifier (str "!!!") = .error (.invalidIdentifier (str "!!!")) := rfl

/-- A nonempty cleaned name (non-identifier characters deleted, leading
underscores stripped) always passes the `isidentifier` check: its head is a
kept character other than `_`, hence a letter, and every later character is
a kept character, hence a letter or `_`. -/
theorem cleaned_isIdentifier {s : List Char}
    (hne : lstripUnderscore (s.filter pyCharIsIdentifier) ≠ []) :
    pyStrIsIdentifier (lstripUnderscore (s.filter pyCharIsIdentifier)) = true := by
  cases hcl : lstripUnderscore (s.filter pyCharIsIdentifier) with
  | nil => exact absurd hcl hne
  | cons c cs =>
    have hmem : ∀ d ∈ c :: cs, pyCharIsIdentifier d = true := by
      intro d hd
      have hd2 : d ∈ lstripUnderscore (s.filter pyCharIsIdentifier) := by
        rw [hcl]; exact hd
      have : d ∈ s.filter pyCharIsIdentifier :=
        (lstripUnderscore_sublist _).mem hd2
      exact (List.mem_filter.mp this).2
    have hcu : c ≠ '_' := by
      have hh := lstripUnderscore_head?_ne (s.filter pyCharIsIdentifier)
      rw [hcl] at hh
      simpa using hh
    have hc := hmem c (by simp)
    rw [pyCharIsIdentifier_eq] at hc
    have hletter : isAsciiLetter c = true := by simpa [hcu] using hc
    simp only [pyStrIsIdentifier, Bool.and_eq_true, List.all_eq_true]
    refine ⟨by simp [hletter], fun d hd => ?_⟩
    have hdkept := hmem d (List.mem_cons_of_mem _ hd)
    rw [pyCharIsIdentifier_eq] at hdkept
    rcases Bool.or_eq_true _ _ |>.mp hdkept with h2 | h2 <;> simp [h2]

/-- C1 (amended): for every ASCII input, the sanitizer raises
`InvalidIdentifier` exactly when deleting non-identifier characters and
stripping leading underscores leaves nothing; on every other input it
returns, without error, an identifier matching `^[A-Za-z_][A-Za-z0-9_]*$`,
possibly differing from the input. -/
theorem sanitizer_ok_matches_safe_pattern (s : List Char)
    (_hascii : s.all isAsciiChar = true) :
    (lstripUnderscore (s.filter pyCharIsIdentifier) = [] →
      validateIdentifier s = .error (.invalidIdentifier s)) ∧
    (lstripUnderscore (s.filter pyCharIsIdentifier) ≠ [] →
      ∃ r, validateIdentifier s = .ok r ∧ matchesSafePattern r = true) := by
  constructor
  · intro hnil
    unfold validateIdentifier
    rw [if_pos hnil]
  · intro hne
    have hpy := cleaned_isIdentifier hne
    refine ⟨lstripUnderscore (s.filter pyCharIsIdentifier), ?_, ?_⟩
    · unfold validateIdentifier
      rw [if_neg hne, if_neg (by simp [hpy])]
    · rw [matchesSafePattern_eq_pyStrIsIdentifier]
      exact hpy

/-- Witness for `sanitizer_ok_matches_safe_pattern` at the concrete input
`"ab_c!"` (cleaned form nonempty), whose sanitization succeeds with
`"ab_c"`. -/
theorem sanitizer_ok_matches_safe_pattern_witness :
    ∃ r, validateIdentifier (str "ab_c!") = .ok r ∧
      matchesSafePattern r = true :=
  (sanitizer_ok_matches_safe_pattern (str "ab_c!") (by decide)).2 (by decide)

/-! ## C2: the replace-and-prefix rule -/

/-- C2 (counterexample): the code does not follow the spec's
replace-and-prefix rule.  On `"1bad name!"` the spec's sanitizer yields
`"_1bad_name_"`, but `_validate_identifier` yields `"badname"` (digits and
other non-identifier characters are deleted, not replaced), so
`create_table("1bad name!", ["col"])` creates a table literally named
`badname`. -/
theorem sanitizer_not_replace_and_prefix :
    specSanitize (str "1bad name!") = str "_1bad_name_" ∧
    validateIdentifier (str "1bad name!") = .ok (str "badname") ∧
    createTableQuery (str "1bad name!") [str "col"] =
      .ok (str "CREATE TABLE IF NOT EXISTS \"badname\" (\"col\" TEXT)") ∧
    str "badname" ≠ str "_1bad_name_" :=
  ⟨by decide, rfl, rfl, by decide⟩

/-- C2 (amended): sanitization follows a delete-and-strip rule, not
replace-and-prefix: every character that is not a single-character Python
identifier (all digits included) is deleted, leading underscores are then
stripped, and nothing is ever prefixed — the result is always a subsequence
of the input made of identifier characters that does not start with `_`;
`create_table("1bad name!", ...)` produces a table literally named
`badname`. -/
theorem sanitizer_deletes_and_strips :
    (validateIdentifier (str "1bad name!") = .ok (str "badname")) ∧
    ∀ s r : List Char, validateIdentifier s = .ok r →
      r.Sublist s ∧ r ≠ [] ∧ r.all pyCharIsIdentifier = true ∧
        r.head? ≠ some '_' := by
  refine ⟨rfl, fun s r h => ?_⟩
  obtain ⟨-, hne, -⟩ := validateIdentifier_ok_facts h
  exact ⟨validateIdentifier_ok_sublist h, hne, validateIdentifier_ok_all h,
    validateIdentifier_ok_head h⟩

/-- Witness for `sanitizer_deletes_and_strips` at the concrete input
`"1bad name!"`. -/
theorem sanitizer_deletes_and_strips_witness :
    (str "badname").Sublist (str "1bad name!") ∧ str "badname" ≠ [] ∧
      (str "badname").all pyCharIsIdentifier = true ∧
      (str "badname").head? ≠ some '_' :=
  sanitizer_deletes_and_strips.2 (str "1bad name!") (str "badname") rfl

/-! ## C3: identity on already-safe identifiers -/

/-- C3 (counterexample): sanitization is *not* the identity on all strings
matching `^[A-Za-z_][A-Za-z0-9_]*$`: the safe identifier `"a1"` is rewritten
to `"a"` (its digit is deleted). -/
theorem sanitizer_not_identity_on_safe :
    matchesSafePattern (str "a1") = true ∧
    validateIdentifier (str "a1") = .ok (str "a") ∧
    str "a" ≠ str "a1" :=
  ⟨by decide, rfl, by decide⟩

/-- C3 (amended): for ASCII input, sanitization is the identity exactly on
the strings matching `^[A-Za-z][A-Za-z_]*$` — nonempty, letters and
underscores only (no digits), not starting with an underscore. -/
theorem sanitizer_fixpoint_iff (s : List Char) (_hascii : s.all isAsciiChar = true) :
    validateIdentifier s = .ok s ↔ matchesLetterPattern s = true := by
  constructor
  · intro h
    obtain ⟨hr, hne, -⟩ := validateIdentifier_ok_facts h
    have hsub1 := lstripUnderscore_sublist (s.filter pyCharIsIdentifier)
    rw [← hr] at hsub1
    have heq : s.filter pyCharIsIdentifier = s :=
      (List.filter_sublist s).antisymm hsub1
    have hall : ∀ c ∈ s, pyCharIsIdentifier c = true := List.filter_eq_self.mp heq
    have hhead : s.head? ≠ some '_' := by rw [hr]; exact lstripUnderscore_head?_ne _
    cases s with
    | nil => exact absurd rfl hne
    | cons c cs =>
      have hc := hall c (by simp)
      rw [pyCharIsIdentifier_eq] at hc
      have hcu : c ≠ '_' := by simpa using hhead
      have hcl : isAsciiLetter c = true := by simpa [hcu] using hc
      simp only [matchesLetterPattern, Bool.and_eq_true, List.all_eq_true]
      refine ⟨hcl, fun d hd => ?_⟩
      have hmem := hall d (List.mem_cons_of_mem _ hd)
      rw [pyCharIsIdentifier_eq] at hmem
      simpa using hmem
  · intro hm
    cases s with
    | nil => simp [matchesLetterPattern] at hm
    | cons c cs =>
      simp only [matchesLetterPattern, Bool.and_eq_true, List.all_eq_true] at hm
      obtain ⟨hc, hcs⟩ := hm
      have hunder : c ≠ '_' := by
        intro hceq
        rw [hceq] at hc
        exact absurd hc (by decide)
      have hall : ∀ d ∈ c :: cs, pyCharIsIdentifier d = true := by
        intro d hd
        rw [pyCharIsIdentifier_eq]
        rcases List.mem_cons.mp hd with hh | hh
        · subst hh; simp [hc]
        · have := hcs d hh
          rcases Bool.or_eq_true _ _ |>.mp this with h2 | h2 <;> simp [h2]
      have hfilter : (c :: cs).filter pyCharIsIdentifier = c :: cs :=
        List.filter_eq_self.mpr hall
      have hstrip : lstripUnderscore (c :: cs) = c :: cs :=
        lstripUnderscore_eq_self (by simpa using hunder)
      have hpy : pyStrIsIdentifier (c :: cs) = true := by
        simp only [pyStrIsIdentifier, Bool.and_eq_true, List.all_eq_true]
        refine ⟨by simp [hc], fun d hd => ?_⟩
        have := hcs d hd
        rcases Bool.or_eq_true _ _ |>.mp this with h2 | h2 <;> simp [h2]
      unfold validateIdentifier
      rw [hfilter, hstrip]
      simp [hpy]

/-- Witness for `sanitizer_fixpoint_iff` at the concrete fixpoint `"abc"`. -/
theorem sanitizer_fixpoint_iff_witness :
    validateIdentifier (str "abc") = .ok (str "abc") :=
  (sanitizer_fixpoint_iff (str "abc") (by decide)).mpr (by decide)


/-! ## Lemmas about rows and `save` -/

theorem validateAll_fixpoint {l : List (List Char)}
    (h : ∀ k ∈ l, validateIdentifier k = .ok k) :
    validateAll l = .ok l := by
  induction l with
  | nil => rfl
  | cons x xs ih =>
    rw [validateAll, h x (by simp), ih (fun k hk => h k (by simp [hk]))]

theorem rowGet_eq_none {r : Row} {c : List Char}
    (h : c ∉ r.map Prod.fst) : rowGet r c = none := by
  unfold rowGet
  rw [List.find?_eq_none.mpr]
  intro p hp hb
  exact h (List.mem_map.mpr ⟨p, hp, by simpa using hb⟩)

theorem rowGet_append_single {r : Row} {k c : List Char}
    {v : Option (List Char)} (h : c ≠ k) :
    rowGet (r ++ [(k, v)]) c = rowGet r c := by
  have hkc : (k == c) = false := beq_eq_false_iff_ne.mpr (Ne.symm h)
  unfold rowGet
  rw [List.find?_append]
  cases hf : List.find? (fun p => p.1 == c) r with
  | some p => rfl
  | none =>
    have h2 : List.find? (fun p => p.1 == c) [(k, v)] = none := by
      simp [List.find?, hkc]
    rw [h2]
    rfl

theorem save_values_congr {table : List Char} {first : Row} {L1 L2 : List Row}
    (h : (first :: L1).map
          (fun row => (first.map Prod.fst).map (fun c => rowGet row c)) =
         (first :: L2).map
          (fun row => (first.map Prod.fst).map (fun c => rowGet row c))) :
    save table (first :: L1) = save table (first :: L2) := by
  simp only [save]
  rw [h]

/-! ## C10: `save` takes its column set from the first row -/

/-- C10 (counterexample): the inserted column set is *not* exactly the first
row's keys — the keys are sanitized first.  For the batch
`[{"a1": "v"}, {"b": "w"}]`, `save` inserts with the single column `a`
(`"a1"` rewritten), the second row's missing key as NULL, and its key `"b"`
dropped. -/
theorem save_rewrites_first_row_keys :
    save (str "t") [[(str "a1", some (str "v"))], [(str "b", some (str "w"))]] =
      .ok (some ⟨str "t", [str "a"], [[some (str "v")], [none]]⟩) ∧
    [str "a"] ≠ [str "a1"] :=
  ⟨rfl, by decide⟩

/-- C10 (amended): `save` determines the inserted column set from the first
row only: the INSERT columns are the sanitized first-row keys (exactly the
first row's keys whenever each key is already a sanitizer fixpoint); each
row contributes, per first-row key in order, its value under that key —
`none` (NULL) when the key is absent; and a key present in a later row but
absent from the first row never affects the insert (it is silently
dropped). -/
theorem save_first_row_determines_columns :
    (∀ (table : List Char) (first : Row) (rest : List Row) (b : InsertBatch),
        save table (first :: rest) = .ok (some b) →
        validateAll (first.map Prod.fst) = .ok b.columns ∧
        ((∀ k ∈ first.map Prod.fst, validateIdentifier k = .ok k) →
            b.columns = first.map Prod.fst) ∧
        b.rows = (first :: rest).map
            (fun row => (first.map Prod.fst).map (fun c => rowGet row c))) ∧
    (∀ (r : Row) (c : List Char), c ∉ r.map Prod.fst → rowGet r c = none) ∧
    (∀ (table : List Char) (first : Row) (pre post : List Row) (r : Row)
        (k : List Char) (v : Option (List Char)), k ∉ first.map Prod.fst →
        save table (first :: (pre ++ (r ++ [(k, v)]) :: post)) =
        save table (first :: (pre ++ r :: post))) := by
  refine ⟨?_, fun r c hc => rowGet_eq_none hc, ?_⟩
  · intro table first rest b h
    simp only [save] at h
    cases hv : validateIdentifier table with
    | error e => rw [hv] at h; exact absurd h (by simp)
    | ok st =>
      rw [hv] at h
      cases hm : validateAll (first.map Prod.fst) with
      | error e => rw [hm] at h; exact absurd h (by simp)
      | ok sc =>
        rw [hm] at h
        simp only [Except.ok.injEq, Option.some.injEq] at h
        subst h
        refine ⟨rfl, ?_, rfl⟩
        intro hfix
        have h2 := validateAll_fixpoint hfix
        rw [hm] at h2
        simpa using h2
  · intro table first pre post r k v hk
    apply save_values_congr
    simp only [List.map_cons, List.map_append]
    have hhead : (first.map Prod.fst).map (fun c => rowGet (r ++ [(k, v)]) c) =
        (first.map Prod.fst).map (fun c => rowGet r c) := by
      apply List.map_congr_left
      intro c hc
      have hck : c ≠ k := fun hEq => hk (hEq ▸ hc)
      exact rowGet_append_single hck
    rw [hhead]

/-- Witness for `save_first_row_determines_columns` at the concrete batch
`[{"a1": "v"}, {"b": "w"}]`. -/
theorem save_first_row_determines_columns_witness :
    validateAll ([(str "a1", some (str "v"))].map Prod.fst) =
        .ok [str "a"] ∧
    rowGet [(str "b", some (str "w"))] (str "a1") = none :=
  ⟨(save_first_row_determines_columns.1 (str "t") [(str "a1", some (str "v"))]
      [[(str "b", some (str "w"))]]
      ⟨str "t", [str "a"], [[some (str "v")], [none]]⟩ rfl).1,
   save_first_row_determines_columns.2.1 [(str "b", some (str "w"))] (str "a1")
      (by decide)⟩


/-! ## Lemmas about the encryption envelope -/

theorem envelopeSlices (salt nonce tag ct : List Nat)
    (hs : salt.length = 16) (hn : nonce.length = 16) (ht : tag.length = 16) :
    (salt ++ nonce ++ tag ++ ct).take 16 = salt ∧
    ((salt ++ nonce ++ tag ++ ct).drop 16).take 16 = nonce ∧
    ((salt ++ nonce ++ tag ++ ct).drop (16 + 16)).take 16 = tag ∧
    (salt ++ nonce ++ tag ++ ct).drop (16 + 16 + 16) = ct := by
  have hassoc : salt ++ nonce ++ tag ++ ct = salt ++ (nonce ++ (tag ++ ct)) := by
    simp [List.append_assoc]
  rw [hassoc]
  refine ⟨List.take_left' hs, ?_, ?_, ?_⟩
  · rw [List.drop_left' hs, List.take_left' hn]
  · rw [show (16 + 16 : ℕ) = salt.length + 16 by rw [hs],
        List.drop_append, List.drop_left' hn, List.take_left' ht]
  · rw [show (16 + 16 + 16 : ℕ) = salt.length + (16 + 16) by rw [hs],
        List.drop_append,
        show (16 + 16 : ℕ) = nonce.length + 16 by rw [hn],
        List.drop_append, List.drop_left' ht]

theorem toyAEAD_unshift (d : List Nat) :
    (d.map (fun x => x + 1)).map (fun x => x - 1) = d := by
  induction d with
  | nil => rfl
  | cons x xs ih => simp [ih]

theorem toyAEAD_roundtrip (k n d : List Nat) :
    toyAEAD.decryptVerify k n (toyAEAD.encrypt k n d).1 (toyAEAD.encrypt k n d).2 =
      some d := by
  simp [toyAEAD, toyAEAD_unshift d]

theorem toyAEAD_tag_len (k n d : List Nat) :
    (toyAEAD.encrypt k n d).2.length = TAG_SIZE := by
  simp [toyAEAD, TAG_SIZE]

/-! ## C4: encryption round-trip -/

/-- C4: decrypting an envelope with the password that produced it recovers
the plaintext exactly, for every plaintext, password, fresh salt and fresh
nonce — assuming the authenticated cipher satisfies its round-trip contract
and emits 16-byte tags (the spec's AES-256-GCM). -/
theorem decrypt_encrypt_roundtrip (A : AEADScheme)
    (data password salt nonce : List Nat)
    (hrt : ∀ k n d, A.decryptVerify k n (A.encrypt k n d).1 (A.encrypt k n d).2 = some d)
    (htag : ∀ k n d, (A.encrypt k n d).2.length = TAG_SIZE)
    (hsalt : salt.length = SALT_SIZE) (hnonce : nonce.length = NONCE_SIZE) :
    decryptEnvelope A (encryptEnvelope A salt nonce data password) password =
      .ok data := by
  simp only [SALT_SIZE] at hsalt
  simp only [NONCE_SIZE] at hnonce
  have hts := htag (A.deriveKey password salt) nonce data
  simp only [TAG_SIZE] at hts
  obtain ⟨e1, e2, e3, e4⟩ :=
    envelopeSlices salt nonce (A.encrypt (A.deriveKey password salt) nonce data).2
      (A.encrypt (A.deriveKey password salt) nonce data).1 hsalt hnonce hts
  simp only [decryptEnvelope, encryptEnvelope, SALT_SIZE, NONCE_SIZE, TAG_SIZE]
  rw [e1, e2, e3, e4, hrt]

/-- Witness for `decrypt_encrypt_roundtrip`: the toy scheme, plaintext
`[1, 2, 3]` and password `[7]`. -/
theorem decrypt_encrypt_roundtrip_witness :
    decryptEnvelope toyAEAD
        (encryptEnvelope toyAEAD (List.replicate 16 0) (List.replicate 16 1)
          [1, 2, 3] [7]) [7] = .ok [1, 2, 3] :=
  decrypt_encrypt_roundtrip toyAEAD [1, 2, 3] [7] (List.replicate 16 0)
    (List.replicate 16 1) toyAEAD_roundtrip toyAEAD_tag_len rfl rfl

/-! ## C5: uniform decryption failure -/

/-- C5: whenever authentication fails — wrong password or corrupted/tampered
envelope — both `decrypt_file` and `decrypt_file_to_temp` fail with the same
fixed `DecryptionFailed` error message, and no other error message is ever
produced by either, so the error does not distinguish the cause. -/
theorem decryption_failure_uniform :
    (∀ (A : AEADScheme) (env password : List Nat) (e : String),
        decryptEnvelope A env password = .error e → e = decryptionFailedMsg) ∧
    (∀ (A : AEADScheme) (env password : List Nat) (e : String),
        decryptEnvelopeToTemp A env password = .error e → e = decryptionFailedMsg) ∧
    (∀ (A : AEADScheme) (env password : List Nat),
        A.decryptVerify (A.deriveKey password (env.take SALT_SIZE))
            ((env.drop SALT_SIZE).take NONCE_SIZE)
            (env.drop (SALT_SIZE + NONCE_SIZE + TAG_SIZE))
            ((env.drop (SALT_SIZE + NONCE_SIZE)).take TAG_SIZE) = none →
          decryptEnvelope A env password = .error decryptionFailedMsg ∧
          decryptEnvelopeToTemp A env password = .error decryptionFailedMsg) := by
  refine ⟨?_, ?_, ?_⟩
  · intro A env password e h
    simp only [decryptEnvelope] at h
    cases hv : A.decryptVerify (A.deriveKey password (env.take SALT_SIZE))
        ((env.drop SALT_SIZE).take NONCE_SIZE)
        (env.drop (SALT_SIZE + NONCE_SIZE + TAG_SIZE))
        ((env.drop (SALT_SIZE + NONCE_SIZE)).take TAG_SIZE) with
    | some p => rw [hv] at h; exact absurd h (by simp)
    | none => rw [hv] at h; simpa using h.symm
  · intro A env password e h
    simp only [decryptEnvelopeToTemp] at h
    cases hv : A.decryptVerify (A.deriveKey password (env.take SALT_SIZE))
        ((env.drop SALT_SIZE).take NONCE_SIZE)
        (env.drop (SALT_SIZE + NONCE_SIZE + TAG_SIZE))
        ((env.drop (SALT_SIZE + NONCE_SIZE)).take TAG_SIZE) with
    | some p => rw [hv] at h; exact absurd h (by simp)
    | none => rw [hv] at h; simpa using h.symm
  · intro A env password h
    constructor
    · simp only [decryptEnvelope]
      rw [h]
    · simp only [decryptEnvelopeToTemp]
      rw [h]

/-- Witness for `decryption_failure_uniform`: decrypting the toy envelope of
`[1, 2, 3]` under password `[7]` with the wrong password `[8]` yields exactly
the fixed `DecryptionFailed` message from both decryption paths. -/
theorem decryption_failure_uniform_witness :
    decryptEnvelope toyAEAD
        (encryptEnvelope toyAEAD (List.replicate 16 0) (List.replicate 16 1)
          [1, 2, 3] [7]) [8] = .error decryptionFailedMsg ∧
    decryptEnvelopeToTemp toyAEAD
        (encryptEnvelope toyAEAD (List.replicate 16 0) (List.replicate 16 1)
          [1, 2, 3] [7]) [8] = .error decryptionFailedMsg :=
  decryption_failure_uniform.2.2 toyAEAD
    (encryptEnvelope toyAEAD (List.replicate 16 0) (List.replicate 16 1)
      [1, 2, 3] [7]) [8] (by decide)

/-! ## C6: close-session re-encryption is not atomic -/

/-- C6: the re-encryption performed on close (`cleanup` calling
`encrypt_bytes_to_file` on `db_path`) is *not* atomic: its only file
operation is a single truncating write of the new envelope directly to the
original encrypted file — no temporary path, no rename — so a write
interrupted partway (here after 2 bytes) leaves the file equal to neither
the original envelope nor the new one: the original is corrupted. -/
theorem reencryption_not_atomic :
    encryptBytesToFileOps toyAEAD (List.replicate 16 2) (List.replicate 16 3)
        [4, 5, 6] [7] (str "catalog.db") =
      [FileOp.writeFile (str "catalog.db")
        (encryptEnvelope toyAEAD (List.replicate 16 2) (List.replicate 16 3)
          [4, 5, 6] [7])] ∧
    writeInterrupted
        (encryptEnvelope toyAEAD (List.replicate 16 0) (List.replicate 16 1)
          [1, 2, 3] [7])
        (encryptEnvelope toyAEAD (List.replicate 16 2) (List.replicate 16 3)
          [4, 5, 6] [7]) 2 ≠
      encryptEnvelope toyAEAD (List.replicate 16 0) (List.replicate 16 1)
        [1, 2, 3] [7] ∧
    writeInterrupted
        (encryptEnvelope toyAEAD (List.replicate 16 0) (List.replicate 16 1)
          [1, 2, 3] [7])
        (encryptEnvelope toyAEAD (List.replicate 16 2) (List.replicate 16 3)
          [4, 5, 6] [7]) 2 ≠
      encryptEnvelope toyAEAD (List.replicate 16 2) (List.replicate 16 3)
        [4, 5, 6] [7] :=
  ⟨rfl, by decide, by decide⟩


/-! ## Lemmas about the search loop -/

theorem exceptMap_error {ε α β : Type} (f : α → β) (x : Except ε α) (e : ε) :
    x.map f = .error e ↔ x = .error e := by
  cases x <;> simp [Except.map]

theorem validateAll_ok_fix : ∀ {l l' : List (List Char)},
    validateAll l = .ok l' → ∀ c ∈ l', validateIdentifier c = .ok c := by
  intro l
  induction l with
  | nil =>
    intro l' h c hc
    rw [validateAll] at h
    simp only [Except.ok.injEq] at h
    subst h
    simp at hc
  | cons x xs ih =>
    intro l' h c hc
    rw [validateAll] at h
    cases hv : validateIdentifier x with
    | error e => rw [hv] at h; exact absurd h (by simp)
    | ok sx =>
      rw [hv] at h
      cases hm : validateAll xs with
      | error e => rw [hm] at h; exact absurd h (by simp)
      | ok rest =>
        rw [hm] at h
        simp only [Except.ok.injEq] at h
        subst h
        rcases List.mem_cons.mp hc with hceq | hcm
        · subst hceq; exact validateIdentifier_idem hv
        · exact ih hm c hcm

theorem planTable_ok_some {g : Bool} {c? : Option (List Char)} {t : TableInfo}
    {nm : List Char} {cs : List (List Char)}
    (h : planTable g c? t = .ok (some (nm, cs))) :
    validateIdentifier t.name = .ok nm ∧
      ∃ cols, chooseColumns g c? t = .ok cols ∧ validateAll cols = .ok cs ∧
        cols ≠ [] := by
  unfold planTable at h
  split at h
  · exact absurd h (by simp)
  · split at h
    · exact absurd h (by simp)
    · next cols heq =>
      split at h
      · exact absurd h (by simp)
      · next hnil =>
        split at h
        · exact absurd h (by simp)
        · next sc heq2 =>
          split at h
          · exact absurd h (by simp)
          · next sn heq3 =>
            simp only [Except.ok.injEq, Option.some.injEq, Prod.mk.injEq] at h
            exact ⟨h.1 ▸ heq3, cols, heq, h.2 ▸ heq2, hnil⟩

theorem searchTableStep_ok_some {db : List TableM} {pat : List Char} {g : Bool}
    {c? : Option (List Char)} {t : TableInfo}
    {qr : List Char × List (List Char)} {rows : List Row}
    (h : searchTableStep db pat g c? t = .ok (some (qr, rows))) :
    ∃ nm cs, planTable g c? t = .ok (some (nm, cs)) ∧
      qr = (buildSelectQuery nm cs, List.replicate cs.length pat) := by
  unfold searchTableStep at h
  split at h
  · exact absurd h (by simp)
  · exact absurd h (by simp)
  · next nm cs heq =>
    split at h
    · exact absurd h (by simp)
    · next rws heq2 =>
      simp only [Except.ok.injEq, Option.some.injEq, Prod.mk.injEq] at h
      exact ⟨nm, cs, heq, h.1.symm⟩

theorem searchTableStep_indep (db : List TableM) (p1 p2 : List Char) (g : Bool)
    (c? : Option (List Char)) (t : TableInfo) :
    (∃ e, searchTableStep db p1 g c? t = .error e ∧
          searchTableStep db p2 g c? t = .error e) ∨
    (searchTableStep db p1 g c? t = .ok none ∧
     searchTableStep db p2 g c? t = .ok none) ∨
    (∃ nm cs rows1 rows2,
      searchTableStep db p1 g c? t =
        .ok (some ((buildSelectQuery nm cs, List.replicate cs.length p1), rows1)) ∧
      searchTableStep db p2 g c? t =
        .ok (some ((buildSelectQuery nm cs, List.replicate cs.length p2), rows2))) := by
  cases hp : planTable g c? t with
  | error e =>
    exact Or.inl ⟨e, by rw [searchTableStep, hp], by rw [searchTableStep, hp]⟩
  | ok st =>
    cases st with
    | none =>
      exact Or.inr (Or.inl ⟨by rw [searchTableStep, hp], by rw [searchTableStep, hp]⟩)
    | some pr =>
      obtain ⟨nm, cs⟩ := pr
      cases he : execResolve db nm cs with
      | error e =>
        refine Or.inl ⟨e, ?_, ?_⟩ <;>
          rw [searchTableStep, hp] <;> simp [execSelectLike, he, Except.map]
      | ok tt =>
        refine Or.inr (Or.inr ⟨nm, cs, tt.rows.filter (rowMatches cs p1),
          tt.rows.filter (rowMatches cs p2), ?_, ?_⟩) <;>
          rw [searchTableStep, hp] <;> simp [execSelectLike, he, Except.map]

theorem searchLoop_queries_indep (db : List TableM) (p1 p2 : List Char)
    (g : Bool) (c? : Option (List Char)) :
    ∀ ts : List TableInfo,
      (searchLoop db p1 g c? ts).map (fun x => x.1.map Prod.fst) =
      (searchLoop db p2 g c? ts).map (fun x => x.1.map Prod.fst) := by
  intro ts
  induction ts with
  | nil => rfl
  | cons t ts ih =>
    rcases searchTableStep_indep db p1 p2 g c? t with
      ⟨e, h1, h2⟩ | ⟨h1, h2⟩ | ⟨nm, cs, r1, r2, h1, h2⟩
    · rw [searchLoop, h1, searchLoop, h2]
    · rw [searchLoop, h1, searchLoop, h2]
      cases hl1 : searchLoop db p1 g c? ts with
      | error e =>
        rw [hl1] at ih
        simp only [Except.map] at ih
        have hl2 : searchLoop db p2 g c? ts = .error e :=
          (exceptMap_error _ _ e).mp ih.symm
        rw [hl2]
      | ok rest1 =>
        rw [hl1] at ih
        cases hl2 : searchLoop db p2 g c? ts with
        | error e =>
          rw [hl2] at ih
          simp [Except.map] at ih
        | ok rest2 =>
          rw [hl2] at ih
          simpa [Except.map] using ih
    · rw [searchLoop, h1, searchLoop, h2]
      cases hl1 : searchLoop db p1 g c? ts with
      | error e =>
        rw [hl1] at ih
        simp only [Except.map] at ih
        have hl2 : searchLoop db p2 g c? ts = .error e :=
          (exceptMap_error _ _ e).mp ih.symm
        rw [hl2]
      | ok rest1 =>
        rw [hl1] at ih
        cases hl2 : searchLoop db p2 g c? ts with
        | error e =>
          rw [hl2] at ih
          simp [Except.map] at ih
        | ok rest2 =>
          rw [hl2] at ih
          simp only [Except.map, Except.ok.injEq] at ih ⊢
          simp [ih]

theorem searchLoop_ok_params (db : List TableM) (pat : List Char) (g : Bool)
    (c? : Option (List Char)) :
    ∀ (ts : List TableInfo) out, searchLoop db pat g c? ts = .ok out →
      ∀ q ∈ out.1, q.2 = List.replicate q.2.length pat ∧
        ∃ name cols, q.1 = buildSelectQuery name cols ∧
          validateIdentifier name = .ok name ∧
          ∀ c ∈ cols, validateIdentifier c = .ok c := by
  intro ts
  induction ts with
  | nil =>
    intro out h q hq
    rw [searchLoop] at h
    simp only [Except.ok.injEq] at h
    subst h
    simp at hq
  | cons t ts ih =>
    intro out h q hq
    rw [searchLoop] at h
    cases hs : searchTableStep db pat g c? t with
    | error e => rw [hs] at h; exact absurd h (by simp)
    | ok st =>
      rw [hs] at h
      cases hl : searchLoop db pat g c? ts with
      | error e => rw [hl] at h; exact absurd h (by simp)
      | ok rest =>
        rw [hl] at h
        cases st with
        | none =>
          simp only [Except.ok.injEq] at h
          subst h
          exact ih rest hl q hq
        | some pr =>
          obtain ⟨qr, rows⟩ := pr
          simp only [Except.ok.injEq] at h
          subst h
          rcases List.mem_cons.mp hq with hq1 | hq2
          · subst hq1
            obtain ⟨nm, cs, hplan, hqr⟩ := searchTableStep_ok_some hs
            obtain ⟨hvn, cols, -, hva, -⟩ := planTable_ok_some hplan
            subst hqr
            exact ⟨by simp, nm, cs, rfl, validateIdentifier_idem hvn,
              validateAll_ok_fix hva⟩
          · exact ih rest hl q hq2


/-! ## C7: the search SQL text is independent of the searched value -/

/-- C7: for the same database and the same table/column targets, the list of
SQL texts `search_data` builds is identical for any two searched values (the
value never reaches the SQL text); every executed query binds the pattern
`%value%` once per searched column as a parameter; and every identifier
interpolated into a query text has passed identifier validation (it is a
fixpoint of `_validate_identifier`). -/
theorem search_sql_value_independent :
    (∀ (db : List TableM) (tableName? columnName? : Option (List Char))
        (v1 v2 : List Char),
        searchQueryTexts db v1 tableName? columnName? =
          searchQueryTexts db v2 tableName? columnName?) ∧
    (∀ (db : List TableM) (value : List Char)
        (tableName? columnName? : Option (List Char)) out,
        searchDataFull db value tableName? columnName? = .ok out →
        ∀ q ∈ out.1, q.2 = List.replicate q.2.length (mkPattern value) ∧
          ∃ name cols, q.1 = buildSelectQuery name cols ∧
            validateIdentifier name = .ok name ∧
            ∀ c ∈ cols, validateIdentifier c = .ok c) := by
  constructor
  · intro db tn cn v1 v2
    unfold searchQueryTexts searchDataFull
    split
    · rfl
    · split
      · rfl
      · next ts2 heq =>
        exact searchLoop_queries_indep db (mkPattern v1) (mkPattern v2)
          tn.isSome cn ts2
  · intro db v tn cn out h
    unfold searchDataFull at h
    split at h
    · exact absurd h (by simp)
    · split at h
      · exact absurd h (by simp)
      · exact searchLoop_ok_params db (mkPattern v) tn.isSome cn _ out h

/-- Witness for `search_sql_value_independent` on the one-table database
`[sampleGood]`: the query texts coincide for the values `"x"` and `"zq"`,
and the single executed query binds the pattern once with a validated
identifier pair. -/
theorem search_sql_value_independent_witness :
    (searchQueryTexts [sampleGood] (str "x") none none =
      searchQueryTexts [sampleGood] (str "zq") none none) ∧
    ((str "select * from \"good\" where \"c\" like ?",
        [mkPattern (str "x")]) : List Char × List (List Char)).2 =
      List.replicate ((str "select * from \"good\" where \"c\" like ?",
        [mkPattern (str "x")]) : List Char × List (List Char)).2.length
        (mkPattern (str "x")) ∧
    ∃ name cols,
      ((str "select * from \"good\" where \"c\" like ?",
        [mkPattern (str "x")]) : List Char × List (List Char)).1 =
          buildSelectQuery name cols ∧
        validateIdentifier name = .ok name ∧
        ∀ c ∈ cols, validateIdentifier c = .ok c :=
  ⟨search_sql_value_independent.1 [sampleGood] none none (str "x") (str "zq"),
   search_sql_value_independent.2 [sampleGood] (str "x") none none
     ([(str "select * from \"good\" where \"c\" like ?", [mkPattern (str "x")])],
      [(str "good", [[(str "c", some (str "vxv"))]])]) rfl
     (str "select * from \"good\" where \"c\" like ?", [mkPattern (str "x")])
     (by simp)⟩


/-! ## Lemmas about `get_tables` on well-named databases -/

theorem find?_name_self {db : List TableM} (hnd : (db.map TableM.name).Nodup)
    {t : TableM} (ht : t ∈ db) :
    db.find? (fun u => u.name == t.name) = some t := by
  induction db with
  | nil => simp at ht
  | cons hd rest ih =>
    rcases List.mem_cons.mp ht with h1 | h1
    · subst h1
      exact List.find?_cons_of_pos _ (by simp)
    · have hne : hd.name ≠ t.name := by
        intro hEq
        have hmem : hd.name ∈ rest.map TableM.name :=
          hEq ▸ List.mem_map_of_mem TableM.name h1
        exact (List.nodup_cons.mp hnd).1 hmem
      rw [List.find?_cons_of_neg _ (by simp [hne])]
      exact ih (List.nodup_cons.mp hnd).2 h1

/-- On a database whose table names are all sanitizer fixpoints (as
`create_table` produces) and pairwise distinct, `get_tables` succeeds and
reports each table's own name, columns and row count. -/
theorem getTablesFrom_fix (db : List TableM) (hnd : (db.map TableM.name).Nodup)
    (hfix : ∀ t ∈ db, validateIdentifier t.name = .ok t.name) :
    ∀ l, (∀ t ∈ l, t ∈ db) →
      getTablesFrom db l =
        .ok (l.map (fun t => ⟨t.name, t.columns, t.rows.length⟩)) := by
  intro l
  induction l with
  | nil => intro _; rfl
  | cons t ts ih =>
    intro hsub
    have htdb : t ∈ db := hsub t (by simp)
    have hinfo : getTableInfo db t = .ok ⟨t.name, t.columns, t.rows.length⟩ := by
      unfold getTableInfo
      split
      · next e heq => rw [hfix t htdb] at heq; exact absurd heq (by simp)
      · next safe heq =>
        rw [hfix t htdb] at heq
        have hsafe : safe = t.name := by simpa using heq.symm
        subst hsafe
        rw [find?_name_self hnd htdb]
    rw [getTablesFrom, hinfo, ih (fun u hu => hsub u (by simp [hu]))]
    rfl

theorem getTables_fix {db : List TableM} (hnd : (db.map TableM.name).Nodup)
    (hfix : ∀ t ∈ db, validateIdentifier t.name = .ok t.name) :
    getTables db = .ok (db.map (fun t => ⟨t.name, t.columns, t.rows.length⟩)) :=
  getTablesFrom_fix db hnd hfix db (fun _ ht => ht)

/-- In a wildcard-column search (`table_name` absent, column `c` given with
`validate(c) = c`), every entry of the result mapping names a searched table
that contains `c`, with a nonempty row list. -/
theorem searchLoop_wildcard (db : List TableM) (pat : List Char)
    (c : List Char) (hc : validateIdentifier c = .ok c) :
    ∀ (infos : List TableInfo) out,
      searchLoop db pat false (some c) infos = .ok out →
      ∀ p ∈ out.2, ∃ i ∈ infos, p.1 = i.name ∧ c ∈ i.columns ∧ p.2 ≠ [] := by
  intro infos
  induction infos with
  | nil =>
    intro out h p hp
    rw [searchLoop] at h
    simp only [Except.ok.injEq] at h
    subst h
    simp at hp
  | cons t ts ih =>
    intro out h p hp
    rw [searchLoop] at h
    cases hs : searchTableStep db pat false (some c) t with
    | error e => rw [hs] at h; exact absurd h (by simp)
    | ok st =>
      rw [hs] at h
      cases hl : searchLoop db pat false (some c) ts with
      | error e => rw [hl] at h; exact absurd h (by simp)
      | ok rest =>
        rw [hl] at h
        cases st with
        | none =>
          simp only [Except.ok.injEq] at h
          subst h
          obtain ⟨i, hi, hrest⟩ := ih rest hl p hp
          exact ⟨i, List.mem_cons_of_mem _ hi, hrest⟩
        | some pr =>
          obtain ⟨qr, rows⟩ := pr
          simp only [Except.ok.injEq] at h
          subst h
          by_cases hrows : rows = []
          · rw [if_pos hrows] at hp
            obtain ⟨i, hi, hrest⟩ := ih rest hl p hp
            exact ⟨i, List.mem_cons_of_mem _ hi, hrest⟩
          · rw [if_neg hrows] at hp
            rcases List.mem_cons.mp hp with hp1 | hp2
            · subst hp1
              obtain ⟨nm, cs, hplan, -⟩ := searchTableStep_ok_some hs
              obtain ⟨-, cols, hch, -, hcols_ne⟩ := planTable_ok_some hplan
              have hmem : c ∈ t.columns := by
                unfold chooseColumns at hch
                split at hch
                · next cn heq =>
                  have hcn : cn = c := by simpa using heq.symm
                  rw [hcn] at hch
                  split at hch
                  · next e2 heq2 => rw [hc] at heq2; exact absurd heq2 (by simp)
                  · next safe heq2 =>
                    rw [hc] at heq2
                    have hsafe : safe = c := by simpa using heq2.symm
                    rw [hsafe] at hch
                    split at hch
                    · next hcc => simpa using hcc
                    · split at hch
                      · simp at hch
                      · simp only [Except.ok.injEq] at hch
                        exact absurd hch.symm hcols_ne
                · next heq => simp at heq
              exact ⟨t, by simp, rfl, hmem, hrows⟩
            · obtain ⟨i, hi, hrest⟩ := ih rest hl p hp2
              exact ⟨i, List.mem_cons_of_mem _ hi, hrest⟩


/-! ## C8: wildcard-column search -/

/-- C8 (counterexample): with an unsanitized selector column, wildcard
search can return results from a table that does *not* contain the selected
column: `*.c1` is sanitized to `c`, so a table with column `c` (and no
column `c1`) is searched and reported. -/
theorem wildcard_search_sanitized_column :
    searchData [⟨str "t", [str "c"], [[(str "c", some (str "x"))]]⟩]
        (str "x") none (some (str "c1")) =
      .ok [(str "t", [[(str "c", some (str "x"))]])] ∧
    str "c1" ∉ [str "c"] :=
  ⟨rfl, by decide⟩

/-- C8 (amended): on a database whose table names are distinct sanitizer
fixpoints, a wildcard-column search `*.c` with a sanitizer-fixpoint column
`c` returns results only from tables that actually contain column `c`, and
a table is never present with an empty row list; tables lacking `c` are
silently skipped.  (For a general selector column, `c` must be replaced by
its sanitized form.) -/
theorem wildcard_search_requires_column (db : List TableM) (v c : List Char)
    (res : List (List Char × List Row))
    (hnd : (db.map TableM.name).Nodup)
    (hfix : ∀ t ∈ db, validateIdentifier t.name = .ok t.name)
    (hc : validateIdentifier c = .ok c)
    (h : searchData db v none (some c) = .ok res) :
    ∀ p ∈ res, ∃ t ∈ db, p.1 = t.name ∧ c ∈ t.columns ∧ p.2 ≠ [] := by
  intro p hp
  unfold searchData searchDataFull at h
  split at h
  · next e heq => rw [getTables_fix hnd hfix] at heq; exact absurd heq (by simp)
  · next infos heq =>
    rw [getTables_fix hnd hfix] at heq
    have hinfos : infos = db.map (fun t => ⟨t.name, t.columns, t.rows.length⟩) := by
      simpa using heq.symm
    split at h
    · next e heq2 => simp [resolveTables] at heq2
    · next ts2 heq2 =>
      have hts2 : ts2 = infos := by
        have := heq2.symm
        simp only [resolveTables, Except.ok.injEq] at this
        exact this
      simp only [Option.isSome_none] at h
      cases hl : searchLoop db (mkPattern v) false (some c) ts2 with
      | error e => rw [hl] at h; simp [Except.map] at h
      | ok out =>
        rw [hl] at h
        simp only [Except.map, Except.ok.injEq] at h
        subst h
        obtain ⟨i, hi, hpi, hci, hpne⟩ :=
          searchLoop_wildcard db (mkPattern v) c hc ts2 out hl p hp
        rw [hts2, hinfos] at hi
        obtain ⟨t, htdb, hti⟩ := List.mem_map.mp hi
        refine ⟨t, htdb, ?_, ?_, hpne⟩
        · rw [hpi, ← hti]
        · rw [← hti] at hci
          simpa using hci

/-- Witness for `wildcard_search_requires_column` on `[sampleGood]` with
selector column `c` and value `x`. -/
theorem wildcard_search_requires_column_witness :
    ∃ t ∈ [sampleGood], str "good" = t.name ∧ str "c" ∈ t.columns ∧
      ([[(str "c", some (str "vxv"))]] : List Row) ≠ [] :=
  wildcard_search_requires_column [sampleGood] (str "x") (str "c")
    [(str "good", [[(str "c", some (str "vxv"))]])]
    (by decide) (by decide) rfl rfl
    (str "good", [[(str "c", some (str "vxv"))]]) (by simp)

/-! ## C9: search error handling granularity -/

/-- C9 (counterexample): per-table query errors are *not* isolated per
table.  In a global search over `[sampleGood, sampleSick]`, the query for
`sampleSick` (whose name `9bad` sanitizes to the nonexistent table `bad`)
raises, and the single global target is aborted: `searchCommand` returns no
results at all, although the healthy table `good` alone yields a match. -/
theorem search_target_error_discards_healthy_tables :
    searchData [sampleGood, sampleSick] (str "x") none none =
      .error (.noSuchTable (str "bad")) ∧
    searchData [sampleGood] (str "x") none none =
      .ok [(str "good", [[(str "c", some (str "vxv"))]])] ∧
    searchCommand [sampleGood, sampleSick] (str "x") [(none, none)] = [] :=
  ⟨rfl, rfl, rfl⟩

/-- C9 (amended): errors are caught per search *target*, not per table: a
`ValueError` or `OperationalError` raised while processing one target makes
`_search_command` skip that entire target (discarding even its
already-collected tables), while every other target in the same search is
still executed and its results aggregated. -/
theorem search_error_caught_per_target (db : List TableM) (v : List Char)
    (ts1 ts2 : List (Option (List Char) × Option (List Char)))
    (tgt : Option (List Char) × Option (List Char)) (e : StorageError)
    (h : searchData db v tgt.1 tgt.2 = .error e) :
    searchCommand db v (ts1 ++ tgt :: ts2) = searchCommand db v (ts1 ++ ts2) := by
  unfold searchCommand
  suffices hgen : ∀ acc,
      (ts1 ++ tgt :: ts2).foldl (fun acc t =>
        match searchData db v t.1 t.2 with
        | .error _ => acc
        | .ok res => mergeResults acc res) acc =
      (ts1 ++ ts2).foldl (fun acc t =>
        match searchData db v t.1 t.2 with
        | .error _ => acc
        | .ok res => mergeResults acc res) acc from hgen []
  intro acc
  induction ts1 generalizing acc with
  | nil =>
    simp only [List.nil_append, List.foldl_cons]
    rw [h]
  | cons t1 rest ih =>
    simp only [List.cons_append, List.foldl_cons]
    exact ih _

/-- Witness for `search_error_caught_per_target`: a failing first target
(the nonexistent table `zzz`) is skipped, and the search behaves as if only
the remaining global target had been given. -/
theorem search_error_caught_per_target_witness :
    searchCommand [sampleGood] (str "x")
        [(some (str "zzz"), none), (none, none)] =
      searchCommand [sampleGood] (str "x") [(none, none)] :=
  search_error_caught_per_target [sampleGood] (str "x") [] [(none, none)]
    (some (str "zzz"), none) (.tableNotFound (str "zzz")) rfl

